import Mathlib

/-!
DCF77 longwave time-signal driver (`drivers/dcf77/dcf77.c`)

A shallow embedding of the edge-driven pulse decoder (`_level_cb_high`,
`_level_cb_low`, `_level_cb`, `dcf77_init`) and of the frame parser
(`dcf77_get_time`), followed by theorems about them.

Conventions of the embedding:
* `uint64_t`, `uint32_t` and `uint8_t` values are natural numbers; every place
  where the C arithmetic can wrap carries an explicit `%`.
* the device structure is passed and returned explicitly;
* each call of `xtimer_now_usec()` is an argument of the handler that makes it
  (`_level_cb_low` can read the clock twice, so it takes two readings);
* a shift `1ULL << n` with `64 ≤ n` has no defined result in C, so the
  falling-edge handler returns an `Option`.
-/

namespace DCF77

/-! ## Constants of `dcf77.c` -/

/-- Persistent level longer than 1200ms starts a new cycle. -/
def DCF77_PULSE_START_HIGH_THRESHOLD : Nat := 1200000

/-- Pulse width above which a pulse is read as 1. -/
def DCF77_PULSE_WIDTH_THRESHOLD : Nat := 140000

/-- Number of bits in a cycle. -/
def DCF77_READING_CYCLE : Nat := 59

def DCF77_MINUTE_MASK : Nat := 0xFE00000
def DCF77_HOUR_MASK : Nat := 0x7E0000000
def DCF77_DATE_MASK : Nat := 0x1FFFFFC00000000

def DCF77_MINUTE_SHIFT : Nat := 21
def DCF77_HOUR_SHIFT : Nat := 29
def DCF77_DATE_SHIFT : Nat := 36

/-! ## Declarations taken from the headers -/

/-- Modelled from the spec: the enumeration of decoder phases is declared in
`dcf77_internal.h`, which is not among the sources. The spec names three phases,
`IDLE`, `ARMED` (`DCF77_STATE_START`) and `RECEIVING` (`DCF77_STATE_RX`); they are
the only values the driver ever stores in `internal_state`. -/
inductive State where
  | DCF77_STATE_IDLE
  | DCF77_STATE_START
  | DCF77_STATE_RX
  deriving DecidableEq, Repr

/-- Modelled from the spec: the return codes are declared in `dcf77.h`, which is
not among the sources. Only their names are used: success, checksum failure,
and failed initialisation. -/
inductive Ret where
  | DCF77_OK
  | DCF77_NOCSUM
  | DCF77_INIT_ERROR
  deriving DecidableEq, Repr

/-- Modelled from the spec: the device descriptor `dcf77_t` is declared in
`dcf77.h`, which is not among the sources. It holds the working frame
(`bitseq`) and the completed frame (`last_bitseq`) as 64-bit words, the last two
transition timestamps as 32-bit microsecond values, the phase and the 8-bit
bit index. The pin parameters are left out: the level read from the pin is an
argument of `_level_cb`. -/
structure dcf77_t where
  bitseq : Nat
  last_bitseq : Nat
  startTime : Nat
  stopTime : Nat
  internal_state : State
  bitCounter : Nat
  deriving DecidableEq, Repr

/-- Standard C `struct tm`; every member is an `int`. -/
structure tm where
  tm_sec : Int
  tm_min : Int
  tm_hour : Int
  tm_mday : Int
  tm_mon : Int
  tm_year : Int
  tm_wday : Int
  tm_yday : Int
  tm_isdst : Int
  deriving DecidableEq, Repr

/-- Modelled from the spec: the timer is an external collaborator, a
microsecond clock that wraps at the platform width; the value handed to the
driver is the reading truncated to `uint32_t`. -/
def xtimer_now_usec (clock : Nat) : Nat := clock % 4294967296

/-- Subtraction of two `uint32_t` values, as in `dev->stopTime - dev->startTime`. -/
def sub_u32 (a b : Nat) : Nat := (a + (4294967296 - b % 4294967296)) % 4294967296

/-- Bit-field member of the frame union: `width` bits starting at bit `off`. -/
def bitfield (bits off width : Nat) : Nat := (bits >>> off) % 2 ^ width

/-! Modelled members of `dcf77_bits_t.val`, least significant bit first. -/

/-- Modelled from the spec: the union `dcf77_bits_t` is declared in
`dcf77_internal.h`, which is not among the sources. The daylight-saving
indicator `mesz` is the two-bit member at bits 17 and 18 of the frame. -/
def val_mesz (bits : Nat) : Nat := bitfield bits 17 2

/-- Modelled from the spec: minute units, bits 21 to 24 (4 units BCD). -/
def val_minute_l (bits : Nat) : Nat := bitfield bits 21 4

/-- Modelled from the spec: minute tens, bits 25 to 27 (3 tens BCD). -/
def val_minute_h (bits : Nat) : Nat := bitfield bits 25 3

/-- Modelled from the spec: minute parity, bit 28. -/
def val_minute_par (bits : Nat) : Nat := bitfield bits 28 1

/-- Modelled from the spec: hour units, bits 29 to 32 (4 units BCD). -/
def val_hour_l (bits : Nat) : Nat := bitfield bits 29 4

/-- Modelled from the spec: hour tens, bits 33 and 34 (2 tens BCD). -/
def val_hour_h (bits : Nat) : Nat := bitfield bits 33 2

/-- Modelled from the spec: hour parity, bit 35. -/
def val_hour_par (bits : Nat) : Nat := bitfield bits 35 1

/-- Modelled from the spec: day-of-month units, bits 36 to 39. -/
def val_day_l (bits : Nat) : Nat := bitfield bits 36 4

/-- Modelled from the spec: day-of-month tens, bits 40 and 41. -/
def val_day_h (bits : Nat) : Nat := bitfield bits 40 2

/-- Modelled from the spec: weekday, bits 42 to 44. -/
def val_wday (bits : Nat) : Nat := bitfield bits 42 3

/-- Modelled from the spec: month units, bits 45 to 48. -/
def val_month_l (bits : Nat) : Nat := bitfield bits 45 4

/-- Modelled from the spec: month tens, bit 49. -/
def val_month_h (bits : Nat) : Nat := bitfield bits 49 1

/-- Modelled from the spec: year units, bits 50 to 53. -/
def val_year_l (bits : Nat) : Nat := bitfield bits 50 4

/-- Modelled from the spec: year tens, bits 54 to 57. -/
def val_year_h (bits : Nat) : Nat := bitfield bits 54 4

/-- Modelled from the spec: date parity, bit 58. -/
def val_date_par (bits : Nat) : Nat := bitfield bits 58 1

/-- Number of set bits among the lowest `n` bits of `x`. -/
def popcount : Nat → Nat → Nat
  | 0, _ => 0
  | n + 1, x => x % 2 + popcount n (x / 2)

/-- The compiler builtin `__builtin_parity(unsigned int)`: the argument is
converted to a 32-bit `unsigned int`, the result is its number of set bits
modulo 2. -/
def __builtin_parity (x : Nat) : Nat := popcount 32 (x % 4294967296) % 2

/-! ## The pulse edge state machine -/

/-- Handler of a transition to the high level; `now` is the clock at the
single call of `xtimer_now_usec()`. -/
def _level_cb_high (dev : dcf77_t) (now : Nat) : dcf77_t :=
  match dev.internal_state with
  | State.DCF77_STATE_START =>
    let dev1 := { dev with stopTime := xtimer_now_usec now }
    if sub_u32 dev1.stopTime dev1.startTime > DCF77_PULSE_START_HIGH_THRESHOLD then
      { dev1 with bitseq := 0, internal_state := State.DCF77_STATE_RX }
    else
      { dev1 with internal_state := State.DCF77_STATE_IDLE }
  | State.DCF77_STATE_RX =>
    { dev with startTime := xtimer_now_usec now }
  | State.DCF77_STATE_IDLE => dev

/-- The statement `dev->bitseq.bits |= 1ULL << dev->bitCounter`, which has a
defined result only for a shift count below 64. -/
def set_frame_bit (dev : dcf77_t) : Option dcf77_t :=
  if dev.bitCounter < 64 then
    some { dev with bitseq := dev.bitseq ||| (1 <<< dev.bitCounter) }
  else
    none

/-- The tail of the `DCF77_STATE_RX` case of `_level_cb_low`: the increment of
the 8-bit counter and the end-of-cycle test; `now2` is the clock at the second
call of `xtimer_now_usec()`. -/
def count_bit (dev : dcf77_t) (now2 : Nat) : dcf77_t :=
  let dev1 := { dev with bitCounter := (dev.bitCounter + 1) % 256 }
  if dev1.bitCounter ≥ DCF77_READING_CYCLE then
    { dev1 with
      bitCounter := 0
      startTime := xtimer_now_usec now2
      last_bitseq := dev1.bitseq
      internal_state := State.DCF77_STATE_START }
  else
    dev1

/-- Handler of a transition to the low level; `now` is the clock at the first
call of `xtimer_now_usec()` and `now2` the clock at the second one, made only
when a cycle completes. -/
def _level_cb_low (dev : dcf77_t) (now now2 : Nat) : Option dcf77_t :=
  match dev.internal_state with
  | State.DCF77_STATE_IDLE =>
    some { dev with
      startTime := xtimer_now_usec now
      internal_state := State.DCF77_STATE_START }
  | State.DCF77_STATE_RX =>
    let dev1 := { dev with stopTime := xtimer_now_usec now }
    if sub_u32 dev1.stopTime dev1.startTime > DCF77_PULSE_WIDTH_THRESHOLD then
      match set_frame_bit dev1 with
      | some dev2 => some (count_bit dev2 now2)
      | none => none
    else
      some (count_bit dev1 now2)
  | State.DCF77_STATE_START => some dev

/-- The interrupt callback: `pin` is the level returned by `gpio_read`. -/
def _level_cb (dev : dcf77_t) (pin : Bool) (now now2 : Nat) : Option dcf77_t :=
  if pin then some (_level_cb_high dev now) else _level_cb_low dev now now2

/-- The part of `dcf77_init` that touches the decoder state; `gpio_init_int`
is the result of registering the interrupt (0 on success). -/
def dcf77_init (dev : dcf77_t) (gpio_init_int : Int) : Ret × dcf77_t :=
  let dev1 := { dev with internal_state := State.DCF77_STATE_IDLE, bitCounter := 0 }
  if gpio_init_int = 0 then (Ret.DCF77_OK, dev1) else (Ret.DCF77_INIT_ERROR, dev1)

/-- One edge event as the callback sees it: the level read from the pin and
the clock values at the first and at the second call of `xtimer_now_usec()`. -/
structure Edge where
  pin : Bool
  now : Nat
  now2 : Nat
  deriving DecidableEq, Repr

/-- The callback run over a sequence of edge events, oldest first. -/
def run_edges : dcf77_t → List Edge → Option dcf77_t
  | dev, [] => some dev
  | dev, e :: es =>
    match _level_cb dev e.pin e.now e.now2 with
    | some dev1 => run_edges dev1 es
    | none => none

/-- The comparison `(dev->stopTime - dev->startTime) > DCF77_PULSE_WIDTH_THRESHOLD`
that the falling-edge handler makes in `DCF77_STATE_RX`, for the clock value
`now`. -/
def pulse_is_one (dev : dcf77_t) (now : Nat) : Bool :=
  decide (sub_u32 (xtimer_now_usec now) dev.startTime > DCF77_PULSE_WIDTH_THRESHOLD)

/-- The 0/1 classifications made at the successive falling edges that the
handler receives in `DCF77_STATE_RX`, oldest first. -/
def classifications : dcf77_t → List Edge → List Bool
  | _, [] => []
  | dev, e :: es =>
    match _level_cb dev e.pin e.now e.now2 with
    | some dev1 =>
      if e.pin = false ∧ dev.internal_state = State.DCF77_STATE_RX then
        pulse_is_one dev e.now :: classifications dev1 es
      else
        classifications dev1 es
    | none => []

/-- Number of falling edges (pin read low) in a sequence of events. -/
def fallingEdges (es : List Edge) : Nat := es.countP (fun e => !e.pin)

/-! ## The frame decoder -/

/-- Decoder of the completed frame: returns the status and the caller's time
structure as it is left by the call. -/
def dcf77_get_time (dev : dcf77_t) (time : tm) : Ret × tm :=
  let bits := dev.last_bitseq
  let time1 : tm :=
    if val_mesz bits = 2 then { time with tm_isdst := 1 } else { time with tm_isdst := 0 }
  let minute := (10 * val_minute_h bits + val_minute_l bits) % 256
  if __builtin_parity ((bits >>> DCF77_MINUTE_SHIFT) &&&
      (DCF77_MINUTE_MASK >>> DCF77_MINUTE_SHIFT)) ≠ val_minute_par bits then
    (Ret.DCF77_NOCSUM, time1)
  else
    let hour := (10 * val_hour_h bits + val_hour_l bits) % 256
    if __builtin_parity ((bits >>> DCF77_HOUR_SHIFT) &&&
        (DCF77_HOUR_MASK >>> DCF77_HOUR_SHIFT)) ≠ val_hour_par bits then
      (Ret.DCF77_NOCSUM, time1)
    else
      let mday := (10 * val_day_h bits + val_day_l bits) % 256
      let wday := val_wday bits % 256
      let month := (10 * val_month_h bits + val_month_l bits) % 256
      let year := (10 * val_year_h bits + val_year_l bits) % 256
      if __builtin_parity ((bits >>> DCF77_DATE_SHIFT) &&&
          (DCF77_DATE_MASK >>> DCF77_DATE_SHIFT)) ≠ val_date_par bits then
        (Ret.DCF77_NOCSUM, time1)
      else
        (Ret.DCF77_OK,
          { time1 with
            tm_min := (minute : Int)
            tm_hour := (hour : Int)
            tm_mday := (mday : Int)
            tm_wday := (wday : Int)
            tm_mon := (month : Int)
            tm_year := 100 + (year : Int) })

/-! ## The frame layout in the words of the specification -/

/-- Bit `k` of a frame as 0 or 1; bit 0 is the earliest-received bit. -/
def frameBit (bits k : Nat) : Nat := if bits.testBit k then 1 else 0

/-- Value of the `w` frame bits starting at position `lo`, read least
significant bit first. -/
def bitsLSB (bits lo : Nat) : Nat → Nat
  | 0 => 0
  | w + 1 => frameBit bits lo + 2 * bitsLSB bits (lo + 1) w

/-- Number of set bits among the `w` frame bits starting at position `lo`. -/
def onesIn (bits lo : Nat) : Nat → Nat
  | 0 => 0
  | w + 1 => frameBit bits lo + onesIn bits (lo + 1) w

/-- Even-parity check in the words of the specification: the stored bit `p`
equals the number of set bits modulo 2 among the `w` data bits from `lo`. -/
def evenParity (bits lo w p : Nat) : Bool :=
  frameBit bits p == onesIn bits lo w % 2

/-- The three parity checks with the scopes the specification gives them:
minute data 21-27 against bit 28, hour data 29-34 against bit 35, and all
the date data 36-57 against bit 58. -/
def specParityOK (bits : Nat) : Bool :=
  evenParity bits 21 7 28 && evenParity bits 29 6 35 && evenParity bits 36 22 58

/-- The three parity checks with the scopes `dcf77_get_time` applies: the
date mask shifted down by `DCF77_DATE_SHIFT` keeps 21 bits, so the date check
covers bits 36-56. -/
def codeParityOK (bits : Nat) : Bool :=
  evenParity bits 21 7 28 && evenParity bits 29 6 35 && evenParity bits 36 21 58

/-- The frame with bit `p` inverted and every other bit unchanged. -/
def flipBit (bits p : Nat) : Nat := bits ^^^ 2 ^ p

/-! ## Concrete inputs -/

/-- A device whose last completed cycle left `bits` in the completed frame. -/
def deviceWithFrame (bits : Nat) : dcf77_t :=
  { bitseq := 0, last_bitseq := bits, startTime := 0, stopTime := 0,
    internal_state := State.DCF77_STATE_START, bitCounter := 0 }

/-- A caller's time structure, cleared, with `tm_isdst` at the conventional
"not known" value. -/
def callerTime : tm :=
  { tm_sec := 0, tm_min := 0, tm_hour := 0, tm_mday := 0, tm_mon := 0, tm_year := 0,
    tm_wday := 0, tm_yday := 0, tm_isdst := -1 }

/-- Minute 34, hour 12, day 25, weekday 3, month 12, year 24, with the three
parity bits 28, 35 and 58 at 1, 0 and 1. -/
def frame_2024_12_25 : Nat :=
  2 ^ 23 + 2 ^ 25 + 2 ^ 26 + 2 ^ 28 + 2 ^ 30 + 2 ^ 33 + 2 ^ 36 + 2 ^ 38 + 2 ^ 41 +
    2 ^ 42 + 2 ^ 43 + 2 ^ 46 + 2 ^ 49 + 2 ^ 52 + 2 ^ 55 + 2 ^ 58

/-- Minute 59, hour 23, day 31, weekday 7, month 12, year 25, with even parity
on the three fields. -/
def frame_2025_12_31 : Nat :=
  2 ^ 21 + 2 ^ 24 + 2 ^ 25 + 2 ^ 27 + 2 ^ 29 + 2 ^ 30 + 2 ^ 34 + 2 ^ 35 + 2 ^ 36 +
    2 ^ 40 + 2 ^ 41 + 2 ^ 42 + 2 ^ 43 + 2 ^ 44 + 2 ^ 46 + 2 ^ 49 + 2 ^ 50 + 2 ^ 52 +
    2 ^ 55 + 2 ^ 58

/-- Monday 1 January 2080, 00:00: start-of-time marker (bit 20), day 1
(bit 36), weekday 1 (bit 42), month 1 (bit 45), year 80 (bit 57). The date
data 36-57 hold four set bits, so the even-parity bit 58 is 0. -/
def frame_2080_01_01 : Nat := 2 ^ 20 + 2 ^ 36 + 2 ^ 42 + 2 ^ 45 + 2 ^ 57

/-- Minute tens 7 and units 15, hour tens 3 and units 15 (bits 21-27 and
29-34 all set), the date data all zero, with even parity on the three fields
(bit 28 set, bits 35 and 58 clear). -/
def frame_minute_85_hour_45 : Nat :=
  2 ^ 21 + 2 ^ 22 + 2 ^ 23 + 2 ^ 24 + 2 ^ 25 + 2 ^ 26 + 2 ^ 27 + 2 ^ 28 +
    2 ^ 29 + 2 ^ 30 + 2 ^ 31 + 2 ^ 32 + 2 ^ 33 + 2 ^ 34

/-- A device in `DCF77_STATE_START`, armed by a falling edge at clock value
`start`. -/
def armedDevice (start : Nat) : dcf77_t :=
  { bitseq := 5, last_bitseq := 9, startTime := start, stopTime := 0,
    internal_state := State.DCF77_STATE_START, bitCounter := 0 }

/-- A device in `DCF77_STATE_RX` with `n` bits received, the frame `bits`
assembled so far, and the last rising edge at clock value `start`. -/
def receivingDevice (bits n start : Nat) : dcf77_t :=
  { bitseq := bits, last_bitseq := 9, startTime := start, stopTime := 0,
    internal_state := State.DCF77_STATE_RX, bitCounter := n }

/-- A device descriptor as it may be found before `dcf77_init`: every member
holds a leftover value. -/
def uninitialisedDevice : dcf77_t :=
  { bitseq := 5, last_bitseq := 9, startTime := 77, stopTime := 0,
    internal_state := State.DCF77_STATE_RX, bitCounter := 200 }

/-- A device in `DCF77_STATE_IDLE`. -/
def idleDevice : dcf77_t :=
  { bitseq := 5, last_bitseq := 9, startTime := 3, stopTime := 7,
    internal_state := State.DCF77_STATE_IDLE, bitCounter := 0 }

/-- The edges of the first `n` seconds of a cycle: in second `i` a rising edge
at `1000000 * i` and a falling edge 100,000 later for even `i`, 200,000 later
for odd `i`. -/
def sampleCycle : Nat → List Edge
  | 0 => []
  | n + 1 =>
    sampleCycle n ++
      [{ pin := true, now := 1000000 * n, now2 := 1000000 * n },
       { pin := false, now := 1000000 * n + 100000 + 100000 * (n % 2),
         now2 := 1000000 * n + 100000 + 100000 * (n % 2) }]

/-! ## Theorems -/

section BitLemmas

theorem frameBit_le_one (bits k : Nat) : frameBit bits k ≤ 1 := by
  unfold frameBit; split <;> omega

theorem frameBit_eq_mod (x : Nat) : frameBit x 0 = x % 2 := by
  unfold frameBit
  rw [Nat.testBit_zero]
  rcases Nat.mod_two_eq_zero_or_one x with h | h <;> simp [h]

theorem frameBit_shiftRight (x s k : Nat) : frameBit (x >>> s) k = frameBit x (s + k) := by
  unfold frameBit; rw [Nat.testBit_shiftRight]

theorem frameBit_half (x k : Nat) : frameBit (x / 2) k = frameBit x (k + 1) := by
  unfold frameBit; rw [Nat.testBit_div_two]

theorem bitsLSB_half (x : Nat) : ∀ (w lo : Nat), bitsLSB (x / 2) lo w = bitsLSB x (lo + 1) w
  | 0, _ => rfl
  | w + 1, lo => by
    simp only [bitsLSB, frameBit_half, bitsLSB_half x w (lo + 1)]

theorem onesIn_half (x : Nat) : ∀ (w lo : Nat), onesIn (x / 2) lo w = onesIn x (lo + 1) w
  | 0, _ => rfl
  | w + 1, lo => by
    simp only [onesIn, frameBit_half, onesIn_half x w (lo + 1)]

/-- Reading `w` bits least significant first is reduction modulo `2 ^ w`. -/
theorem bitsLSB_zero_eq_mod : ∀ (w x : Nat), bitsLSB x 0 w = x % 2 ^ w
  | 0, x => by simp [bitsLSB, Nat.mod_one]
  | w + 1, x => by
    have ih := bitsLSB_zero_eq_mod w (x / 2)
    rw [bitsLSB_half] at ih
    simp only [bitsLSB, Nat.zero_add, ih, frameBit_eq_mod]
    rw [Nat.pow_succ', Nat.mod_mul]

theorem bitsLSB_shiftRight (x s : Nat) :
    ∀ (w lo : Nat), bitsLSB (x >>> s) lo w = bitsLSB x (s + lo) w
  | 0, _ => rfl
  | w + 1, lo => by
    simp only [bitsLSB, frameBit_shiftRight, bitsLSB_shiftRight x s w (lo + 1)]
    rfl

/-- A bit-field member of the frame is the value of its bit range. -/
theorem bitfield_eq_bitsLSB (bits off w : Nat) : bitfield bits off w = bitsLSB bits off w := by
  unfold bitfield
  rw [← bitsLSB_zero_eq_mod, bitsLSB_shiftRight, Nat.add_zero]

theorem popcount_eq_onesIn : ∀ (n x : Nat), popcount n x = onesIn x 0 n
  | 0, _ => rfl
  | n + 1, x => by
    simp only [popcount, onesIn, popcount_eq_onesIn n (x / 2), onesIn_half, frameBit_eq_mod]

theorem onesIn_congr {x y : Nat} :
    ∀ (w a b : Nat), (∀ k, k < w → y.testBit (a + k) = x.testBit (b + k)) →
      onesIn y a w = onesIn x b w
  | 0, _, _, _ => rfl
  | w + 1, a, b, h => by
    have h0 := h 0 (Nat.succ_pos w)
    simp only [Nat.add_zero] at h0
    have hr : onesIn y (a + 1) w = onesIn x (b + 1) w := by
      apply onesIn_congr
      intro k hk
      have := h (k + 1) (Nat.succ_lt_succ hk)
      simpa [Nat.add_assoc, Nat.add_comm 1 k] using this
    simp only [onesIn, frameBit, h0, hr]

theorem bitsLSB_congr {x y : Nat} :
    ∀ (w a b : Nat), (∀ k, k < w → y.testBit (a + k) = x.testBit (b + k)) →
      bitsLSB y a w = bitsLSB x b w
  | 0, _, _, _ => rfl
  | w + 1, a, b, h => by
    have h0 := h 0 (Nat.succ_pos w)
    simp only [Nat.add_zero] at h0
    have hr : bitsLSB y (a + 1) w = bitsLSB x (b + 1) w := by
      apply bitsLSB_congr
      intro k hk
      have := h (k + 1) (Nat.succ_lt_succ hk)
      simpa [Nat.add_assoc, Nat.add_comm 1 k] using this
    simp only [bitsLSB, frameBit, h0, hr]

theorem onesIn_add (x : Nat) :
    ∀ (a lo b : Nat), onesIn x lo (a + b) = onesIn x lo a + onesIn x (lo + a) b
  | 0, lo, b => by simp [onesIn]
  | a + 1, lo, b => by
    have ih := onesIn_add x a (lo + 1) b
    have e : a + 1 + b = (a + b) + 1 := by omega
    have e2 : lo + 1 + a = lo + (a + 1) := by omega
    rw [e]
    simp only [onesIn, ih, e2]
    omega

theorem onesIn_eq_zero {x : Nat} :
    ∀ (w lo : Nat), (∀ k, k < w → x.testBit (lo + k) = false) → onesIn x lo w = 0
  | 0, _, _ => rfl
  | w + 1, lo, h => by
    have h0 := h 0 (Nat.succ_pos w)
    simp only [Nat.add_zero] at h0
    have hr : onesIn x (lo + 1) w = 0 := by
      apply onesIn_eq_zero
      intro k hk
      have := h (k + 1) (Nat.succ_lt_succ hk)
      simpa [Nat.add_assoc, Nat.add_comm 1 k] using this
    simp [onesIn, frameBit, h0, hr]

/-- The builtin applied to a masked, shifted frame is the parity of the
selected bit range, as long as the range fits an `unsigned int`. -/
theorem builtin_parity_masked (bits s w : Nat) (hw : w ≤ 32) :
    __builtin_parity ((bits >>> s) &&& (2 ^ w - 1)) = onesIn bits s w % 2 := by
  unfold __builtin_parity
  rw [popcount_eq_onesIn, Nat.and_pow_two_sub_one_eq_mod]
  have e : (32 : Nat) = w + (32 - w) := by omega
  rw [e, onesIn_add]
  have h1 : onesIn ((bits >>> s) % 2 ^ w % 4294967296) 0 w = onesIn bits s w := by
    apply onesIn_congr
    intro k hk
    have e32 : (4294967296 : Nat) = 2 ^ 32 := by norm_num
    rw [e32, Nat.testBit_mod_two_pow, Nat.testBit_mod_two_pow, Nat.testBit_shiftRight]
    have h32 : k < 32 := by omega
    simp [hk, h32]
  have h2 : onesIn ((bits >>> s) % 2 ^ w % 4294967296) (0 + w) (32 - w) = 0 := by
    apply onesIn_eq_zero
    intro k _
    have e32 : (4294967296 : Nat) = 2 ^ 32 := by norm_num
    rw [e32, Nat.testBit_mod_two_pow, Nat.testBit_mod_two_pow]
    have : ¬ (0 + w + k < w) := by omega
    simp [this]
  rw [h1, h2, Nat.add_zero]

end BitLemmas

section Decoder

theorem bitfield_lt (bits off w : Nat) : bitfield bits off w < 2 ^ w := by
  unfold bitfield
  exact Nat.mod_lt _ (Nat.two_pow_pos w)

theorem bitfield_one (bits off : Nat) : bitfield bits off 1 = frameBit bits off := by
  rw [bitfield_eq_bitsLSB]
  simp [bitsLSB]

theorem minute_check (bits : Nat) :
    __builtin_parity ((bits >>> DCF77_MINUTE_SHIFT) &&&
      (DCF77_MINUTE_MASK >>> DCF77_MINUTE_SHIFT)) = onesIn bits 21 7 % 2 := by
  have e : DCF77_MINUTE_MASK >>> DCF77_MINUTE_SHIFT = 2 ^ 7 - 1 := by decide
  rw [e]
  exact builtin_parity_masked bits 21 7 (by omega)

theorem hour_check (bits : Nat) :
    __builtin_parity ((bits >>> DCF77_HOUR_SHIFT) &&&
      (DCF77_HOUR_MASK >>> DCF77_HOUR_SHIFT)) = onesIn bits 29 6 % 2 := by
  have e : DCF77_HOUR_MASK >>> DCF77_HOUR_SHIFT = 2 ^ 6 - 1 := by decide
  rw [e]
  exact builtin_parity_masked bits 29 6 (by omega)

theorem date_check (bits : Nat) :
    __builtin_parity ((bits >>> DCF77_DATE_SHIFT) &&&
      (DCF77_DATE_MASK >>> DCF77_DATE_SHIFT)) = onesIn bits 36 21 % 2 := by
  have e : DCF77_DATE_MASK >>> DCF77_DATE_SHIFT = 2 ^ 21 - 1 := by decide
  rw [e]
  exact builtin_parity_masked bits 36 21 (by omega)

/-- The status returned by `dcf77_get_time` is decided by the three parity
checks as the code scopes them. -/
theorem get_time_status (dev : dcf77_t) (time : tm) :
    (dcf77_get_time dev time).1 =
      if codeParityOK dev.last_bitseq then Ret.DCF77_OK else Ret.DCF77_NOCSUM := by
  simp only [dcf77_get_time, minute_check, hour_check, date_check, val_minute_par,
    val_hour_par, val_date_par, bitfield_one, codeParityOK, evenParity]
  by_cases h1 : onesIn dev.last_bitseq 21 7 % 2 = frameBit dev.last_bitseq 28
  · by_cases h2 : onesIn dev.last_bitseq 29 6 % 2 = frameBit dev.last_bitseq 35
    · by_cases h3 : onesIn dev.last_bitseq 36 21 % 2 = frameBit dev.last_bitseq 58
      · simp [h1, h2, h3]
      · have h3' : ¬ frameBit dev.last_bitseq 58 = onesIn dev.last_bitseq 36 21 % 2 :=
          fun h => h3 h.symm
        simp [h1, h2, h3, h3']
    · have h2' : ¬ frameBit dev.last_bitseq 35 = onesIn dev.last_bitseq 29 6 % 2 :=
        fun h => h2 h.symm
      simp [h1, h2, h2']
  · have h1' : ¬ frameBit dev.last_bitseq 28 = onesIn dev.last_bitseq 21 7 % 2 :=
      fun h => h1 h.symm
    simp [h1, h1']

/-- On a checksum failure only `tm_isdst` has been written: it holds the
daylight-saving indication of the rejected frame, and the other members of
the caller's structure are as before the call. -/
theorem get_time_nocsum_out (dev : dcf77_t) (time : tm)
    (h : (dcf77_get_time dev time).1 = Ret.DCF77_NOCSUM) :
    (dcf77_get_time dev time).2 =
      { time with tm_isdst := if val_mesz dev.last_bitseq = 2 then 1 else 0 } := by
  unfold dcf77_get_time at h ⊢
  simp only [] at h ⊢
  split_ifs at h ⊢ <;> rfl

theorem testBit_flipBit (b p k : Nat) :
    (flipBit b p).testBit k = (b.testBit k != decide (p = k)) := by
  unfold flipBit
  rw [Nat.testBit_xor, Nat.testBit_two_pow]

theorem frameBit_flipBit_self (b p : Nat) : frameBit (flipBit b p) p = 1 - frameBit b p := by
  unfold frameBit
  rw [testBit_flipBit]
  cases b.testBit p <;> simp

theorem frameBit_flipBit_of_ne (b p k : Nat) (h : p ≠ k) :
    frameBit (flipBit b p) k = frameBit b k := by
  unfold frameBit
  rw [testBit_flipBit]
  simp [h]

theorem onesIn_flipBit (b p lo w : Nat) (h : p < lo ∨ lo + w ≤ p) :
    onesIn (flipBit b p) lo w = onesIn b lo w := by
  apply onesIn_congr
  intro k hk
  rw [testBit_flipBit]
  have : p ≠ lo + k := by omega
  simp [this]

theorem codeParityOK_flipBit (b p : Nat) (hp : p = 28 ∨ p = 35 ∨ p = 58)
    (h : codeParityOK b = true) : codeParityOK (flipBit b p) = false := by
  have l28 := frameBit_le_one b 28
  have l35 := frameBit_le_one b 35
  have l58 := frameBit_le_one b 58
  simp only [codeParityOK, evenParity, Bool.and_eq_true, beq_iff_eq] at h
  obtain ⟨⟨h1, h2⟩, h3⟩ := h
  simp only [codeParityOK, evenParity, Bool.and_eq_false_iff, beq_eq_false_iff_ne, ne_eq]
  rcases hp with rfl | rfl | rfl
  · left; left
    rw [frameBit_flipBit_self, onesIn_flipBit _ _ _ _ (by omega)]
    omega
  · left; right
    rw [frameBit_flipBit_self, onesIn_flipBit _ _ _ _ (by omega)]
    omega
  · right
    rw [frameBit_flipBit_self, onesIn_flipBit _ _ _ _ (by omega)]
    omega

/-- As long as bit 57 (the 80s of the year) is clear, the checks the code makes
are the checks of the specification. -/
theorem codeParityOK_eq_spec_of_bit57_clear (bits : Nat) (h : frameBit bits 57 = 0) :
    codeParityOK bits = specParityOK bits := by
  have e : onesIn bits 36 22 = onesIn bits 36 21 + onesIn bits (36 + 21) 1 :=
    onesIn_add bits 21 36 1
  have e1 : onesIn bits (36 + 21) 1 = 0 := by
    show frameBit bits 57 + 0 = 0
    omega
  rw [e1, Nat.add_zero] at e
  simp only [codeParityOK, specParityOK, evenParity, e]

/-- C1: whenever `dcf77_get_time` returns `DCF77_OK`, the members it wrote are
the BCD-decoded fields of the completed frame, each bit range read least
significant bit first: `tm_min = 10*bits[25..27] + bits[21..24]`,
`tm_hour = 10*bits[33..34] + bits[29..32]`, `tm_mday = 10*bits[40..41] + bits[36..39]`,
`tm_wday = bits[42..44]`, `tm_mon = 10*bits[49] + bits[45..48]` and
`tm_year = 100 + (10*bits[54..57] + bits[50..53])`. -/
theorem get_time_ok_fields (dev : dcf77_t) (time : tm)
    (hok : (dcf77_get_time dev time).1 = Ret.DCF77_OK) :
    (dcf77_get_time dev time).2.tm_min
        = 10 * (bitsLSB dev.last_bitseq 25 3 : Int) + bitsLSB dev.last_bitseq 21 4 ∧
    (dcf77_get_time dev time).2.tm_hour
        = 10 * (bitsLSB dev.last_bitseq 33 2 : Int) + bitsLSB dev.last_bitseq 29 4 ∧
    (dcf77_get_time dev time).2.tm_mday
        = 10 * (bitsLSB dev.last_bitseq 40 2 : Int) + bitsLSB dev.last_bitseq 36 4 ∧
    (dcf77_get_time dev time).2.tm_wday = (bitsLSB dev.last_bitseq 42 3 : Int) ∧
    (dcf77_get_time dev time).2.tm_mon
        = 10 * (bitsLSB dev.last_bitseq 49 1 : Int) + bitsLSB dev.last_bitseq 45 4 ∧
    (dcf77_get_time dev time).2.tm_year
        = 100 + (10 * (bitsLSB dev.last_bitseq 54 4 : Int) + bitsLSB dev.last_bitseq 50 4) := by
  have b1 := bitfield_lt dev.last_bitseq 25 3
  have b2 := bitfield_lt dev.last_bitseq 21 4
  have b3 := bitfield_lt dev.last_bitseq 33 2
  have b4 := bitfield_lt dev.last_bitseq 29 4
  have b5 := bitfield_lt dev.last_bitseq 40 2
  have b6 := bitfield_lt dev.last_bitseq 36 4
  have b7 := bitfield_lt dev.last_bitseq 42 3
  have b8 := bitfield_lt dev.last_bitseq 49 1
  have b9 := bitfield_lt dev.last_bitseq 45 4
  have b10 := bitfield_lt dev.last_bitseq 54 4
  have b11 := bitfield_lt dev.last_bitseq 50 4
  simp only [bitfield_eq_bitsLSB] at b1 b2 b3 b4 b5 b6 b7 b8 b9 b10 b11
  norm_num at b1 b2 b3 b4 b5 b6 b7 b8 b9 b10 b11
  unfold dcf77_get_time at hok ⊢
  simp only [val_minute_h, val_minute_l, val_hour_h, val_hour_l, val_day_h, val_day_l,
    val_wday, val_month_h, val_month_l, val_year_h, val_year_l, bitfield_eq_bitsLSB] at hok ⊢
  split_ifs at hok ⊢ <;> simp only [] <;> omega

/-- Witness of C1 on the frame of 31 December 2025, 23:59. -/
theorem get_time_ok_fields_witness :
    (dcf77_get_time (deviceWithFrame frame_2025_12_31) callerTime).1 = Ret.DCF77_OK ∧
    (dcf77_get_time (deviceWithFrame frame_2025_12_31) callerTime).2.tm_min
        = 10 * (bitsLSB (deviceWithFrame frame_2025_12_31).last_bitseq 25 3 : Int)
          + bitsLSB (deviceWithFrame frame_2025_12_31).last_bitseq 21 4 ∧
    (dcf77_get_time (deviceWithFrame frame_2025_12_31) callerTime).2.tm_min = 59 :=
  ⟨by decide,
   (get_time_ok_fields (deviceWithFrame frame_2025_12_31) callerTime (by decide)).1,
   by decide⟩

/-- C2, evaluated at the frame of 1 January 2080: the three even-parity checks
of the specification pass (the date data 36-57 hold four set bits and bit 58
is 0), yet `dcf77_get_time` returns `DCF77_NOCSUM`, its date check leaving out
bit 57; and on the same frame with bit 58 inverted the specification's date
check fails, yet `dcf77_get_time` returns `DCF77_OK`. -/
theorem date_parity_leaves_out_bit_57 :
    specParityOK frame_2080_01_01 = true ∧
    (dcf77_get_time (deviceWithFrame frame_2080_01_01) callerTime).1 = Ret.DCF77_NOCSUM ∧
    specParityOK (flipBit frame_2080_01_01 58) = false ∧
    (dcf77_get_time (deviceWithFrame (flipBit frame_2080_01_01 58)) callerTime).1
      = Ret.DCF77_OK := by
  decide

/-- C3: on a frame for which `dcf77_get_time` returns `DCF77_OK`, inverting one
of the stored parity bits (28, 35 or 58) and leaving every other bit as it is
makes `dcf77_get_time` return `DCF77_NOCSUM`. -/
theorem parity_bit_flip_gives_nocsum (dev : dcf77_t) (time time2 : tm) (p : Nat)
    (hp : p = 28 ∨ p = 35 ∨ p = 58)
    (hok : (dcf77_get_time dev time).1 = Ret.DCF77_OK) :
    (dcf77_get_time { dev with last_bitseq := flipBit dev.last_bitseq p } time2).1
      = Ret.DCF77_NOCSUM := by
  rw [get_time_status] at hok ⊢
  have h : codeParityOK dev.last_bitseq = true := by
    by_contra hc
    simp [hc] at hok
  simp [codeParityOK_flipBit _ p hp h]

/-- Witness of C3: the frame of 31 December 2025 with its hour parity bit
inverted. -/
theorem parity_bit_flip_gives_nocsum_witness :
    (dcf77_get_time (deviceWithFrame frame_2025_12_31) callerTime).1 = Ret.DCF77_OK ∧
    (dcf77_get_time
        { deviceWithFrame frame_2025_12_31 with
          last_bitseq := flipBit (deviceWithFrame frame_2025_12_31).last_bitseq 35 }
        callerTime).1 = Ret.DCF77_NOCSUM :=
  ⟨by decide,
   parity_bit_flip_gives_nocsum (deviceWithFrame frame_2025_12_31) callerTime callerTime 35
     (Or.inr (Or.inl rfl)) (by decide)⟩

/-- C4, evaluated at the frame of 25 December 2024 with its minute parity bit
inverted: `dcf77_get_time` returns `DCF77_NOCSUM` and the caller's `tm_isdst`,
-1 before the call, is 0 after it; the other members are unchanged. -/
theorem nocsum_overwrites_tm_isdst :
    callerTime.tm_isdst = -1 ∧
    dcf77_get_time (deviceWithFrame (flipBit frame_2024_12_25 28)) callerTime
      = (Ret.DCF77_NOCSUM, { callerTime with tm_isdst := 0 }) := by
  decide

/-- C9: on the frame encoding minute 34, hour 12, day 25, weekday 3, month 12
and year 24 with parity bits 1, 0 and 1, `dcf77_get_time` returns `DCF77_OK`
with `tm_min = 34`, `tm_hour = 12`, `tm_mday = 25`, `tm_mon = 12`,
`tm_wday = 3` and `tm_year = 124`. -/
theorem get_time_2024_12_25 :
    (dcf77_get_time (deviceWithFrame frame_2024_12_25) callerTime).1 = Ret.DCF77_OK ∧
    (dcf77_get_time (deviceWithFrame frame_2024_12_25) callerTime).2.tm_min = 34 ∧
    (dcf77_get_time (deviceWithFrame frame_2024_12_25) callerTime).2.tm_hour = 12 ∧
    (dcf77_get_time (deviceWithFrame frame_2024_12_25) callerTime).2.tm_mday = 25 ∧
    (dcf77_get_time (deviceWithFrame frame_2024_12_25) callerTime).2.tm_mon = 12 ∧
    (dcf77_get_time (deviceWithFrame frame_2024_12_25) callerTime).2.tm_wday = 3 ∧
    (dcf77_get_time (deviceWithFrame frame_2024_12_25) callerTime).2.tm_year = 124 := by
  decide

end Decoder

section Machine

theorem xtimer_now_usec_of_lt (t : Nat) (h : t < 4294967296) : xtimer_now_usec t = t := by
  unfold xtimer_now_usec; omega

/-- Without a wrap of the timer between the two readings, the measured
interval is the plain difference. -/
theorem sub_u32_of_le (a b : Nat) (ha : a < 4294967296) (hb : b ≤ a) : sub_u32 a b = a - b := by
  unfold sub_u32; omega

/-- The falling-edge handler in `DCF77_STATE_RX`, with its tests made explicit. -/
theorem level_cb_low_rx (dev : dcf77_t) (t t2 : Nat)
    (hs : dev.internal_state = State.DCF77_STATE_RX) (hc : dev.bitCounter < 64) :
    _level_cb dev false t t2 = some (count_bit
      { dev with
        stopTime := xtimer_now_usec t
        bitseq := if pulse_is_one dev t then dev.bitseq ||| 2 ^ dev.bitCounter
                  else dev.bitseq } t2) := by
  by_cases h : sub_u32 (xtimer_now_usec t) dev.startTime > DCF77_PULSE_WIDTH_THRESHOLD
  · simp [_level_cb, _level_cb_low, hs, pulse_is_one, set_frame_bit, hc, Nat.one_shiftLeft, h]
  · simp [_level_cb, _level_cb_low, hs, pulse_is_one, h]

theorem count_bit_bitseq (d : dcf77_t) (now2 : Nat) : (count_bit d now2).bitseq = d.bitseq := by
  unfold count_bit
  simp only []
  split_ifs <;> rfl

/-- C5: in `DCF77_STATE_START` a rising edge at clock value `t` leads to
`DCF77_STATE_RX` if and only if the measured gap `t - startTime` (in 32-bit
arithmetic) is strictly greater than 1,200,000; for every gap at or below
that, 1,200,000 itself included, the machine goes to `DCF77_STATE_IDLE` and the
working frame, the bit counter and the completed frame are unchanged. -/
theorem armed_rising_edge (dev : dcf77_t) (t t2 : Nat)
    (hs : dev.internal_state = State.DCF77_STATE_START) (ht : t < 4294967296) :
    ∃ r, _level_cb dev true t t2 = some r ∧
      (r.internal_state = State.DCF77_STATE_RX ↔ 1200000 < sub_u32 t dev.startTime) ∧
      (sub_u32 t dev.startTime ≤ 1200000 →
        r.internal_state = State.DCF77_STATE_IDLE ∧ r.bitseq = dev.bitseq ∧
        r.bitCounter = dev.bitCounter ∧ r.last_bitseq = dev.last_bitseq) := by
  refine ⟨_level_cb_high dev t, by simp [_level_cb], ?_, ?_⟩
  · simp only [_level_cb_high, hs, xtimer_now_usec_of_lt t ht, DCF77_PULSE_START_HIGH_THRESHOLD]
    split_ifs with h
    · simp [h]
    · simp [h]
  · intro hle
    have h : ¬ sub_u32 t dev.startTime > 1200000 := by omega
    simp [_level_cb_high, hs, xtimer_now_usec_of_lt t ht, DCF77_PULSE_START_HIGH_THRESHOLD, h]

/-- Witness of C5: armed at 1,000,000, rising edge at 2,200,000, a gap of
exactly 1,200,000. -/
theorem armed_rising_edge_witness :
    sub_u32 2200000 (armedDevice 1000000).startTime = 1200000 ∧
    ∃ r, _level_cb (armedDevice 1000000) true 2200000 0 = some r ∧
      (r.internal_state = State.DCF77_STATE_RX ↔
        1200000 < sub_u32 2200000 (armedDevice 1000000).startTime) ∧
      (sub_u32 2200000 (armedDevice 1000000).startTime ≤ 1200000 →
        r.internal_state = State.DCF77_STATE_IDLE ∧ r.bitseq = (armedDevice 1000000).bitseq ∧
        r.bitCounter = (armedDevice 1000000).bitCounter ∧
        r.last_bitseq = (armedDevice 1000000).last_bitseq) :=
  ⟨by decide, armed_rising_edge (armedDevice 1000000) 2200000 0 rfl (by decide)⟩

/-- C6 as stated fails: in `DCF77_STATE_RX` with the last rising edge at 0, a
falling edge at 140,000 measures a width of exactly 140,000 and leaves bit 0 of
the working frame at 0. -/
theorem width_140000_leaves_bit_clear :
    sub_u32 140000 (receivingDevice 0 0 0).startTime = 140000 ∧
    (_level_cb (receivingDevice 0 0 0) false 140000 140000).map
      (fun r => r.bitseq.testBit 0) = some false := by
  decide

/-- C6 as amended: in `DCF77_STATE_RX` the bit appended at position `bitCounter`
by a falling edge at clock value `t` is 1 exactly when the measured width
`t - startTime` is strictly greater than 140,000. -/
theorem appended_bit (dev : dcf77_t) (t t2 : Nat)
    (hs : dev.internal_state = State.DCF77_STATE_RX) (ht : t < 4294967296)
    (hc : dev.bitCounter < 64) (hz : dev.bitseq.testBit dev.bitCounter = false) :
    ∃ r, _level_cb dev false t t2 = some r ∧
      (r.bitseq.testBit dev.bitCounter = true ↔ 140000 < sub_u32 t dev.startTime) := by
  refine ⟨_, level_cb_low_rx dev t t2 hs hc, ?_⟩
  rw [count_bit_bitseq]
  simp only [pulse_is_one, xtimer_now_usec_of_lt t ht, DCF77_PULSE_WIDTH_THRESHOLD]
  by_cases h : 140000 < sub_u32 t dev.startTime
  · simp [h, Nat.testBit_two_pow_self]
  · simp [h, hz]

/-- Witness of C6 as amended: a width of 140,001 at bit position 3. -/
theorem appended_bit_witness :
    sub_u32 5140001 (receivingDevice 5 3 5000000).startTime = 140001 ∧
    ∃ r, _level_cb (receivingDevice 5 3 5000000) false 5140001 0 = some r ∧
      (r.bitseq.testBit (receivingDevice 5 3 5000000).bitCounter = true ↔
        140000 < sub_u32 5140001 (receivingDevice 5 3 5000000).startTime) :=
  ⟨by decide,
   appended_bit (receivingDevice 5 3 5000000) 5140001 0 rfl (by decide) (by decide) (by decide)⟩

/-- C7: in `DCF77_STATE_RX` with `bitCounter = 58`, a falling edge appends the
59th bit and completes the cycle: `bitCounter` is 0, the completed frame is
the working frame with the bit just appended, `stopTime` is the clock value
`t` read on entry, `startTime` is the clock value `t2` read at the re-arming
(so `startTime = t` for an edge handled at the single instant `t`), and the
state is `DCF77_STATE_START`; with `bitCounter < 58` the state stays
`DCF77_STATE_RX`, `bitCounter` grows by one and the completed frame is
unchanged. -/
theorem receiving_falling_edge (dev : dcf77_t) (t t2 : Nat)
    (hs : dev.internal_state = State.DCF77_STATE_RX)
    (ht : t < 4294967296) (ht2 : t2 < 4294967296) :
    (dev.bitCounter = 58 →
      ∃ r, _level_cb dev false t t2 = some r ∧
        r.bitCounter = 0 ∧
        r.bitseq = (if 140000 < sub_u32 t dev.startTime then dev.bitseq ||| 2 ^ 58
                    else dev.bitseq) ∧
        r.last_bitseq = r.bitseq ∧
        r.stopTime = t ∧ r.startTime = t2 ∧ (t2 = t → r.startTime = t) ∧
        r.internal_state = State.DCF77_STATE_START) ∧
    (dev.bitCounter < 58 →
      ∃ r, _level_cb dev false t t2 = some r ∧
        r.internal_state = State.DCF77_STATE_RX ∧
        r.bitCounter = dev.bitCounter + 1 ∧
        r.last_bitseq = dev.last_bitseq) := by
  constructor
  · intro hc
    refine ⟨_, level_cb_low_rx dev t t2 hs (by omega), ?_⟩
    simp [count_bit, hc, DCF77_READING_CYCLE, pulse_is_one, xtimer_now_usec_of_lt t ht,
      xtimer_now_usec_of_lt t2 ht2, DCF77_PULSE_WIDTH_THRESHOLD]
  · intro hc
    refine ⟨_, level_cb_low_rx dev t t2 hs (by omega), ?_⟩
    have h1 : (dev.bitCounter + 1) % 256 = dev.bitCounter + 1 := by omega
    have h2 : ¬ (59 ≤ dev.bitCounter + 1) := by omega
    simp [count_bit, DCF77_READING_CYCLE, h1, h2, hs]

/-- Witness of C7: the 59th falling edge, 200,000 after the rising edge. -/
theorem receiving_falling_edge_witness :
    (receivingDevice 5 58 58000000).bitCounter = 58 ∧
    ∃ r, _level_cb (receivingDevice 5 58 58000000) false 58200000 58200000 = some r ∧
      r.bitCounter = 0 ∧
      r.bitseq = (if 140000 < sub_u32 58200000 (receivingDevice 5 58 58000000).startTime
                  then (receivingDevice 5 58 58000000).bitseq ||| 2 ^ 58
                  else (receivingDevice 5 58 58000000).bitseq) ∧
      r.last_bitseq = r.bitseq ∧
      r.stopTime = 58200000 ∧ r.startTime = 58200000 ∧
      ((58200000 : Nat) = 58200000 → r.startTime = 58200000) ∧
      r.internal_state = State.DCF77_STATE_START :=
  ⟨rfl,
   (receiving_falling_edge (receivingDevice 5 58 58000000) 58200000 58200000 rfl
      (by decide) (by decide)).1 rfl⟩

/-- C8: in `DCF77_STATE_IDLE` a falling edge at clock value `t` moves the
machine to `DCF77_STATE_START` and records `startTime = t`; `stopTime`,
`bitCounter`, the working frame and the completed frame are unchanged. -/
theorem idle_falling_edge (dev : dcf77_t) (t t2 : Nat)
    (hs : dev.internal_state = State.DCF77_STATE_IDLE) (ht : t < 4294967296) :
    _level_cb dev false t t2 =
      some { dev with startTime := t, internal_state := State.DCF77_STATE_START } := by
  simp [_level_cb, _level_cb_low, hs, xtimer_now_usec_of_lt t ht]

/-- Witness of C8: a falling edge at 1,000,000 in the idle device. -/
theorem idle_falling_edge_witness :
    idleDevice.internal_state = State.DCF77_STATE_IDLE ∧
    _level_cb idleDevice false 1000000 0 =
      some { idleDevice with startTime := 1000000,
                             internal_state := State.DCF77_STATE_START } :=
  ⟨rfl, idle_falling_edge idleDevice 1000000 0 rfl (by decide)⟩

theorem level_cb_high_last_bitseq (dev : dcf77_t) (t : Nat) :
    (_level_cb_high dev t).last_bitseq = dev.last_bitseq := by
  unfold _level_cb_high
  split
  · simp only []
    split_ifs <;> rfl
  · rfl
  · rfl

theorem run_edges_cons (dev d1 : dcf77_t) (e : Edge) (es : List Edge)
    (h : _level_cb dev e.pin e.now e.now2 = some d1) :
    run_edges dev (e :: es) = run_edges d1 es := by
  simp [run_edges, h]

theorem classifications_cons_rising (dev d1 : dcf77_t) (e : Edge) (es : List Edge)
    (hp : e.pin = true) (h : _level_cb dev e.pin e.now e.now2 = some d1) :
    classifications dev (e :: es) = classifications d1 es := by
  rw [hp] at h
  simp [classifications, h, hp]

theorem classifications_cons_falling (dev d1 : dcf77_t) (e : Edge) (es : List Edge)
    (hp : e.pin = false) (hs : dev.internal_state = State.DCF77_STATE_RX)
    (h : _level_cb dev e.pin e.now e.now2 = some d1) :
    classifications dev (e :: es) = pulse_is_one dev e.now :: classifications d1 es := by
  rw [hp] at h
  simp [classifications, h, hp, hs]

/-- The falling-edge step in `DCF77_STATE_RX`, by its effect on the fields. -/
theorem falling_rx_step (dev : dcf77_t) (t t2 c : Nat)
    (hs : dev.internal_state = State.DCF77_STATE_RX) (hbc : dev.bitCounter = c) (hc : c < 59) :
    ∃ d1, _level_cb dev false t t2 = some d1 ∧
      (∀ k, d1.bitseq.testBit k = (dev.bitseq.testBit k || (pulse_is_one dev t && decide (c = k)))) ∧
      (c = 58 → d1.last_bitseq = d1.bitseq) ∧
      (c < 58 → d1.internal_state = State.DCF77_STATE_RX ∧ d1.bitCounter = c + 1) := by
  refine ⟨_, level_cb_low_rx dev t t2 hs (by omega), ?_, ?_, ?_⟩
  · intro k
    rw [count_bit_bitseq]
    cases pulse_is_one dev t <;> simp [Nat.testBit_or, Nat.testBit_two_pow, hbc]
  · intro h58
    simp [count_bit, hbc, h58, DCF77_READING_CYCLE]
  · intro h58
    have h1 : (c + 1) % 256 = c + 1 := by omega
    have h2 : ¬ (59 ≤ c + 1) := by omega
    simp [count_bit, DCF77_READING_CYCLE, hbc, h1, h2, hs]

theorem rising_rx_step (dev : dcf77_t) (t t2 : Nat)
    (hs : dev.internal_state = State.DCF77_STATE_RX) :
    ∃ d1, _level_cb dev true t t2 = some d1 ∧ d1.bitseq = dev.bitseq ∧
      d1.internal_state = State.DCF77_STATE_RX ∧ d1.bitCounter = dev.bitCounter :=
  ⟨_level_cb_high dev t, by simp [_level_cb], by simp [_level_cb_high, hs],
    by simp [_level_cb_high, hs], by simp [_level_cb_high, hs]⟩

/-- Rising edges alone leave the completed frame as it is and classify nothing. -/
theorem rising_only (es : List Edge) :
    ∀ (dev : dcf77_t), fallingEdges es = 0 →
      ∃ r, run_edges dev es = some r ∧ r.last_bitseq = dev.last_bitseq ∧
        classifications dev es = [] := by
  induction es with
  | nil => intro dev _; exact ⟨dev, rfl, rfl, rfl⟩
  | cons e es ih =>
    intro dev h
    have hp : e.pin = true := by
      cases hpin : e.pin
      · simp [fallingEdges, List.countP_cons, hpin] at h
      · rfl
    have hrest : fallingEdges es = 0 := by
      simpa [fallingEdges, List.countP_cons, hp] using h
    have hstep : _level_cb dev e.pin e.now e.now2 = some (_level_cb_high dev e.now) := by
      simp [_level_cb, hp]
    obtain ⟨r, hr, hl, hcl⟩ := ih (_level_cb_high dev e.now) hrest
    refine ⟨r, ?_, ?_, ?_⟩
    · rw [run_edges_cons _ _ _ _ hstep, hr]
    · rw [hl, level_cb_high_last_bitseq]
    · rw [classifications_cons_rising _ _ _ _ hp hstep, hcl]

/-- Frame assembly from any point of a cycle. -/
theorem assemble_from (es : List Edge) :
    ∀ (dev : dcf77_t) (c : Nat),
      dev.internal_state = State.DCF77_STATE_RX → dev.bitCounter = c → c < 59 →
      fallingEdges es = 59 - c →
      (∀ k, c ≤ k → dev.bitseq.testBit k = false) →
      ∃ r, run_edges dev es = some r ∧
        (classifications dev es).length = 59 - c ∧
        ∀ k, r.last_bitseq.testBit k =
          if k < c then dev.bitseq.testBit k
          else (classifications dev es).getD (k - c) false := by
  induction es with
  | nil =>
    intro dev c _ _ hc h _
    simp [fallingEdges] at h
    omega
  | cons e es ih =>
    intro dev c hs hbc hc hn hz
    cases hpin : e.pin
    · -- falling edge
      have hrest : fallingEdges es = 59 - c - 1 := by
        simp [fallingEdges, List.countP_cons, hpin] at hn
        simp [fallingEdges]
        omega
      obtain ⟨d1, hstep, hbits, hdone, hmore⟩ := falling_rx_step dev e.now e.now2 c hs hbc hc
      rw [← hpin] at hstep
      rw [run_edges_cons _ _ _ _ hstep, classifications_cons_falling _ _ _ _ hpin hs hstep]
      by_cases h58 : c = 58
      · -- the cycle completes
        obtain ⟨r, hr, hl, hcl⟩ := rising_only es d1 (by omega)
        refine ⟨r, hr, by simp [hcl, h58], ?_⟩
        intro k
        rw [hl, hdone h58, hbits, hcl]
        by_cases hk : k < c
        · have hne : c ≠ k := by omega
          simp [hk, hne]
        · by_cases hk2 : k = c
          · simp [hk2, hz c (Nat.le_refl c)]
          · have hne : c ≠ k := by omega
            have hpos : k - c = (k - c - 1) + 1 := by omega
            rw [hpos]
            simp [hk, hne, hz k (by omega)]
      · -- the cycle goes on
        obtain ⟨hs1, hbc1⟩ := hmore (by omega)
        have hz1 : ∀ k, c + 1 ≤ k → d1.bitseq.testBit k = false := by
          intro k hk
          have hne : c ≠ k := by omega
          rw [hbits, hz k (by omega)]
          simp [hne]
        obtain ⟨r, hr, hlen, hall⟩ := ih d1 (c + 1) hs1 hbc1 (by omega) (by omega) hz1
        refine ⟨r, hr, by simp [hlen]; omega, ?_⟩
        intro k
        rw [hall k]
        by_cases hk : k < c
        · have hne : c ≠ k := by omega
          have hk1 : k < c + 1 := by omega
          simp [hk, hk1, hbits, hne]
        · by_cases hk2 : k = c
          · subst hk2
            simp [hbits, hz k (Nat.le_refl k)]
          · have hk1 : ¬ k < c + 1 := by omega
            have hpos : k - c = (k - (c + 1)) + 1 := by omega
            rw [hpos]
            simp [hk, hk1]
    · -- rising edge
      have hrest : fallingEdges es = 59 - c := by
        simpa [fallingEdges, List.countP_cons, hpin] using hn
      obtain ⟨d1, hstep, hb, hs1, hbc1⟩ := rising_rx_step dev e.now e.now2 hs
      rw [← hpin] at hstep
      rw [run_edges_cons _ _ _ _ hstep, classifications_cons_rising _ _ _ _ hpin hstep]
      have hz1 : ∀ k, c ≤ k → d1.bitseq.testBit k = false := by
        intro k hk; rw [hb]; exact hz k hk
      obtain ⟨r, hr, hlen, hall⟩ := ih d1 c hs1 (by rw [hbc1, hbc]) hc hrest hz1
      exact ⟨r, hr, hlen, by intro k; rw [hall k, hb]⟩

/-- C10: from `DCF77_STATE_RX` with the working frame all zero and
`bitCounter = 0`, every event sequence with exactly 59 falling edges, rising
edges interleaved at will, runs to a state whose completed frame has, for
every `k < 59`, bit `k` equal to the classification the handler made at the
`k`-th falling edge, and every bit from position 59 on equal to 0. -/
theorem frame_assembly (dev : dcf77_t) (es : List Edge)
    (hs : dev.internal_state = State.DCF77_STATE_RX) (hb : dev.bitseq = 0)
    (hc : dev.bitCounter = 0) (hn : fallingEdges es = 59) :
    ∃ r, run_edges dev es = some r ∧
      (classifications dev es).length = 59 ∧
      (∀ k, k < 59 → (classifications dev es)[k]? = some (r.last_bitseq.testBit k)) ∧
      (∀ k, 59 ≤ k → r.last_bitseq.testBit k = false) := by
  obtain ⟨r, hr, hlen, hall⟩ := assemble_from es dev 0 hs hc (by omega) (by omega)
    (by intro k _; rw [hb]; exact Nat.zero_testBit k)
  refine ⟨r, hr, hlen, ?_, ?_⟩
  · intro k hk
    have := hall k
    simp only [Nat.not_lt_zero, ↓reduceIte, Nat.sub_zero] at this
    rw [this, List.getD_eq_getElem?_getD]
    have hlt : k < (classifications dev es).length := by omega
    rw [List.getElem?_eq_getElem hlt]
    simp
  · intro k hk
    have := hall k
    simp only [Nat.not_lt_zero, ↓reduceIte, Nat.sub_zero] at this
    rw [this]
    apply List.getD_eq_default
    omega

/-- Witness of C10: the 59 seconds of `sampleCycle`. -/
theorem frame_assembly_witness :
    fallingEdges (sampleCycle 59) = 59 ∧
    ∃ r, run_edges (receivingDevice 0 0 0) (sampleCycle 59) = some r ∧
      (classifications (receivingDevice 0 0 0) (sampleCycle 59)).length = 59 ∧
      (∀ k, k < 59 → (classifications (receivingDevice 0 0 0) (sampleCycle 59))[k]?
          = some (r.last_bitseq.testBit k)) ∧
      (∀ k, 59 ≤ k → r.last_bitseq.testBit k = false) :=
  ⟨by decide, frame_assembly (receivingDevice 0 0 0) (sampleCycle 59) rfl rfl rfl (by decide)⟩

/-- One callback step keeps the cycle invariant and sets no frame bit from
position 59 on. -/
theorem level_cb_inv (dev : dcf77_t) (pin : Bool) (t t2 : Nat)
    (h1 : dev.bitCounter < 59)
    (h2 : dev.internal_state ≠ State.DCF77_STATE_RX → dev.bitCounter = 0) :
    ∃ r, _level_cb dev pin t t2 = some r ∧ r.bitCounter < 59 ∧
      (r.internal_state ≠ State.DCF77_STATE_RX → r.bitCounter = 0) ∧
      (∀ k, 59 ≤ k → r.bitseq.testBit k = true → dev.bitseq.testBit k = true) := by
  cases pin
  · -- falling edge
    cases hs : dev.internal_state
    · refine ⟨_, by simp [_level_cb, _level_cb_low, hs]; rfl, ?_, ?_, ?_⟩
      · exact h1
      · intro _; exact h2 (by simp [hs])
      · intro k _ h; exact h
    · refine ⟨dev, by simp [_level_cb, _level_cb_low, hs], h1, h2, ?_⟩
      intro k _ h; exact h
    · refine ⟨_, level_cb_low_rx dev t t2 hs (by omega), ?_, ?_, ?_⟩
      · unfold count_bit
        simp only [DCF77_READING_CYCLE]
        split_ifs <;> simp_all
      · unfold count_bit
        simp only [DCF77_READING_CYCLE]
        split_ifs <;> simp_all
      · intro k hk
        rw [count_bit_bitseq]
        have hne : dev.bitCounter ≠ k := by omega
        cases pulse_is_one dev t <;> simp [Nat.testBit_or, Nat.testBit_two_pow, hne]
  · -- rising edge
    refine ⟨_level_cb_high dev t, by simp [_level_cb], ?_, ?_, ?_⟩
    · unfold _level_cb_high
      split
      · simp only []; split_ifs <;> exact h1
      · exact h1
      · exact h1
    · unfold _level_cb_high
      split
      · rename_i hs
        simp only []
        split_ifs
        · intro _; exact h2 (by simp [hs])
        · intro _; exact h2 (by simp [hs])
      · rename_i hs
        intro h; exact absurd hs h
      · exact h2
    · intro k _
      unfold _level_cb_high
      split
      · simp only []
        split_ifs
        · simp
        · exact id
      · exact id
      · exact id

theorem run_edges_inv (es : List Edge) :
    ∀ (dev : dcf77_t), dev.bitCounter < 59 →
      (dev.internal_state ≠ State.DCF77_STATE_RX → dev.bitCounter = 0) →
      ∃ r, run_edges dev es = some r ∧ r.bitCounter < 59 ∧
        (r.internal_state ≠ State.DCF77_STATE_RX → r.bitCounter = 0) := by
  induction es with
  | nil => intro dev h1 h2; exact ⟨dev, rfl, h1, h2⟩
  | cons e es ih =>
    intro dev h1 h2
    obtain ⟨d1, hstep, g1, g2, _⟩ := level_cb_inv dev e.pin e.now e.now2 h1 h2
    obtain ⟨r, hr, k1, k2⟩ := ih d1 g1 g2
    exact ⟨r, by rw [run_edges_cons _ _ _ _ hstep, hr], k1, k2⟩

theorem init_inv (dev : dcf77_t) (g : Int) :
    (dcf77_init dev g).2.bitCounter = 0 ∧
    (dcf77_init dev g).2.internal_state = State.DCF77_STATE_IDLE := by
  unfold dcf77_init
  simp only []
  split_ifs <;> exact ⟨rfl, rfl⟩

/-- Every run from `dcf77_init` is defined and ends in a state that satisfies
the cycle invariant. -/
theorem reachable_inv (dev : dcf77_t) (g : Int) (es : List Edge) :
    ∃ r, run_edges (dcf77_init dev g).2 es = some r ∧ r.bitCounter < 59 ∧
      (r.internal_state ≠ State.DCF77_STATE_RX → r.bitCounter = 0) := by
  obtain ⟨h0, _⟩ := init_inv dev g
  exact run_edges_inv es _ (by omega) (fun _ => h0)

/-- C11: in every state reached from `dcf77_init` by a sequence of edge events,
a rising edge in `DCF77_STATE_START` whose gap exceeds 1,200,000 leaves the
machine in `DCF77_STATE_RX` with the working frame zero and `bitCounter = 0`;
the handler does not assign the counter, it is 0 already. -/
theorem long_gap_starts_clean_cycle (dev0 : dcf77_t) (g : Int) (es : List Edge)
    (dev : dcf77_t) (t t2 : Nat)
    (hr : run_edges (dcf77_init dev0 g).2 es = some dev)
    (hs : dev.internal_state = State.DCF77_STATE_START)
    (ht : t < 4294967296) (hg : 1200000 < sub_u32 t dev.startTime) :
    ∃ r, _level_cb dev true t t2 = some r ∧
      r.internal_state = State.DCF77_STATE_RX ∧ r.bitseq = 0 ∧ r.bitCounter = 0 := by
  obtain ⟨r0, hr0, _, hz⟩ := reachable_inv dev0 g es
  rw [hr] at hr0
  cases hr0
  have hbc : dev.bitCounter = 0 := hz (by simp [hs])
  refine ⟨_level_cb_high dev t, by simp [_level_cb], ?_, ?_, ?_⟩ <;>
    simp [_level_cb_high, hs, xtimer_now_usec_of_lt t ht, DCF77_PULSE_START_HIGH_THRESHOLD,
      hg, hbc]

/-- Witness of C11: initialisation, a falling edge at 1,000,000 and a rising
edge 1,500,000 later. -/
theorem long_gap_starts_clean_cycle_witness :
    run_edges (dcf77_init uninitialisedDevice 0).2 [{ pin := false, now := 1000000, now2 := 0 }]
      = some (armedDevice 1000000) ∧
    ∃ r, _level_cb (armedDevice 1000000) true 2500000 0 = some r ∧
      r.internal_state = State.DCF77_STATE_RX ∧ r.bitseq = 0 ∧ r.bitCounter = 0 :=
  ⟨by decide,
   long_gap_starts_clean_cycle uninitialisedDevice 0 [{ pin := false, now := 1000000, now2 := 0 }]
     (armedDevice 1000000) 2500000 0 (by decide) rfl (by decide) (by decide)⟩

/-- C12: a rising edge in `DCF77_STATE_IDLE` and a falling edge in
`DCF77_STATE_START` each return the device as it was, whatever the members
hold and whatever the clock reads. -/
theorem out_of_phase_edges (dev : dcf77_t) (t t2 : Nat) :
    (dev.internal_state = State.DCF77_STATE_IDLE → _level_cb dev true t t2 = some dev) ∧
    (dev.internal_state = State.DCF77_STATE_START → _level_cb dev false t t2 = some dev) := by
  constructor
  · intro hs; simp [_level_cb, _level_cb_high, hs]
  · intro hs; simp [_level_cb, _level_cb_low, hs]

/-- Witness of C12 on the idle and on the armed device. -/
theorem out_of_phase_edges_witness :
    _level_cb idleDevice true 1000000 0 = some idleDevice ∧
    _level_cb (armedDevice 1000000) false 1100000 0 = some (armedDevice 1000000) :=
  ⟨(out_of_phase_edges idleDevice 1000000 0).1 rfl,
   (out_of_phase_edges (armedDevice 1000000) 1100000 0).2 rfl⟩

/-- C14: every run of edge events from `dcf77_init` is defined and ends in a
state with `bitCounter < 59`, and with `bitCounter = 0` in `DCF77_STATE_IDLE`
and in `DCF77_STATE_START`; so the next callback is defined as well (its shift
count is below 64) and sets no frame bit from position 59 on. -/
theorem reachable_bit_counter (dev0 : dcf77_t) (g : Int) (es : List Edge) :
    ∃ r, run_edges (dcf77_init dev0 g).2 es = some r ∧
      r.bitCounter < 59 ∧
      (r.internal_state = State.DCF77_STATE_IDLE ∨
        r.internal_state = State.DCF77_STATE_START → r.bitCounter = 0) ∧
      ∀ (pin : Bool) (t t2 : Nat), ∃ r2, _level_cb r pin t t2 = some r2 ∧
        ∀ k, 59 ≤ k → r2.bitseq.testBit k = true → r.bitseq.testBit k = true := by
  obtain ⟨r, hr, h1, h2⟩ := reachable_inv dev0 g es
  refine ⟨r, hr, h1, ?_, ?_⟩
  · intro h
    apply h2
    rcases h with h | h <;> simp [h]
  · intro pin t t2
    obtain ⟨r2, hstep, _, _, hb⟩ := level_cb_inv r pin t t2 h1 h2
    exact ⟨r2, hstep, hb⟩

/-- C15: in a state reached from `dcf77_init`, after a rising edge at `t1` in
`DCF77_STATE_START` with a gap above 1,200,000, `startTime` is still the arming
falling edge; a falling edge that follows at `t2`, with
`startTime ≤ t1 ≤ t2 < 2^32`, measures `t2 - startTime`, above 1,200,000, and
sets bit 0 of the working frame, whatever the pulse length `t2 - t1`. -/
theorem first_bit_measured_from_arming_edge (dev0 : dcf77_t) (g : Int) (es : List Edge)
    (dev : dcf77_t) (t1 t1b t2 t2b : Nat)
    (hr : run_edges (dcf77_init dev0 g).2 es = some dev)
    (hs : dev.internal_state = State.DCF77_STATE_START)
    (h1 : dev.startTime ≤ t1) (h2 : t1 ≤ t2) (h3 : t2 < 4294967296)
    (hg : 1200000 < t1 - dev.startTime) :
    ∃ r1 r2, _level_cb dev true t1 t1b = some r1 ∧
      r1.internal_state = State.DCF77_STATE_RX ∧ r1.stopTime = t1 ∧
      r1.startTime = dev.startTime ∧ r1.bitseq = 0 ∧
      _level_cb r1 false t2 t2b = some r2 ∧
      sub_u32 t2 r1.startTime = t2 - dev.startTime ∧
      1200000 < sub_u32 t2 r1.startTime ∧
      r2.bitseq.testBit 0 = true ∧ r2.bitseq = 1 := by
  obtain ⟨r0, hr0, _, hz⟩ := reachable_inv dev0 g es
  rw [hr] at hr0
  cases hr0
  have hbc : dev.bitCounter = 0 := hz (by simp [hs])
  have ht1 : t1 < 4294967296 := by omega
  have hgap : sub_u32 t1 dev.startTime = t1 - dev.startTime :=
    sub_u32_of_le t1 dev.startTime ht1 h1
  have hw : sub_u32 t2 dev.startTime = t2 - dev.startTime :=
    sub_u32_of_le t2 dev.startTime h3 (by omega)
  have hr1 : _level_cb_high dev t1 =
      { dev with stopTime := t1, bitseq := 0, internal_state := State.DCF77_STATE_RX } := by
    have : 1200000 < sub_u32 t1 dev.startTime := by omega
    simp [_level_cb_high, hs, xtimer_now_usec_of_lt t1 ht1, DCF77_PULSE_START_HIGH_THRESHOLD,
      this]
  have hp : pulse_is_one (_level_cb_high dev t1) t2 = true := by
    have : 140000 < sub_u32 t2 dev.startTime := by omega
    simp [hr1, pulse_is_one, xtimer_now_usec_of_lt t2 h3, DCF77_PULSE_WIDTH_THRESHOLD, this]
  refine ⟨_level_cb_high dev t1, _, by simp [_level_cb], ?_, ?_, ?_, ?_,
    level_cb_low_rx (_level_cb_high dev t1) t2 t2b (by simp [hr1]) (by simp [hr1, hbc]),
    ?_, ?_, ?_, ?_⟩
  · simp [hr1]
  · simp [hr1]
  · simp [hr1]
  · simp [hr1]
  · simp [hr1, hw]
  · simp only [hr1, hw]; omega
  · rw [count_bit_bitseq]
    simp [hp]
    simp [hr1, hbc]
  · rw [count_bit_bitseq]
    simp [hp]
    simp [hr1, hbc]

/-- Witness of C15: armed at 1,000,000, rising edge at 2,500,000, falling
edge at 2,600,000 (a pulse of 100,000). -/
theorem first_bit_measured_from_arming_edge_witness :
    run_edges (dcf77_init uninitialisedDevice 0).2 [{ pin := false, now := 1000000, now2 := 0 }]
      = some (armedDevice 1000000) ∧
    ∃ r1 r2, _level_cb (armedDevice 1000000) true 2500000 0 = some r1 ∧
      r1.internal_state = State.DCF77_STATE_RX ∧ r1.stopTime = 2500000 ∧
      r1.startTime = (armedDevice 1000000).startTime ∧ r1.bitseq = 0 ∧
      _level_cb r1 false 2600000 0 = some r2 ∧
      sub_u32 2600000 r1.startTime = 2600000 - (armedDevice 1000000).startTime ∧
      1200000 < sub_u32 2600000 r1.startTime ∧
      r2.bitseq.testBit 0 = true ∧ r2.bitseq = 1 :=
  ⟨by decide,
   first_bit_measured_from_arming_edge uninitialisedDevice 0
     [{ pin := false, now := 1000000, now2 := 0 }] (armedDevice 1000000)
     2500000 0 2600000 0 (by decide) rfl (by decide) (by decide) (by decide) (by decide)⟩

/-- Effect of one callback on the two frames, for any member values: the
callback is defined for every counter below 64, and whenever it returns, the
completed frame is the one before the event unless the end-of-cycle test of
the falling-edge handler fires, where it is the working frame; an event
handled in `DCF77_STATE_IDLE` leaves the working frame unchanged. From a
counter below 59 the test fires exactly when the counter reaches 59. -/
theorem level_cb_frames (dev : dcf77_t) (pin : Bool) (t t2 : Nat) :
    (dev.bitCounter < 64 → ∃ r, _level_cb dev pin t t2 = some r) ∧
    (∀ r, _level_cb dev pin t t2 = some r →
      (pin = false ∧ dev.internal_state = State.DCF77_STATE_RX ∧
          59 ≤ (dev.bitCounter + 1) % 256 →
        r.last_bitseq = r.bitseq) ∧
      (¬ (pin = false ∧ dev.internal_state = State.DCF77_STATE_RX ∧
          59 ≤ (dev.bitCounter + 1) % 256) →
        r.last_bitseq = dev.last_bitseq) ∧
      (dev.internal_state = State.DCF77_STATE_IDLE → r.bitseq = dev.bitseq)) ∧
    (dev.bitCounter < 59 →
      (59 ≤ (dev.bitCounter + 1) % 256 ↔ dev.bitCounter + 1 = 59)) := by
  refine ⟨?_, ?_, by omega⟩
  · intro hc
    cases pin
    · cases hs : dev.internal_state
      · exact ⟨_, by simp [_level_cb, _level_cb_low, hs]; rfl⟩
      · exact ⟨dev, by simp [_level_cb, _level_cb_low, hs]⟩
      · exact ⟨_, level_cb_low_rx dev t t2 hs hc⟩
    · exact ⟨_, by simp [_level_cb]; rfl⟩
  · intro r hr
    cases pin
    · cases hs : dev.internal_state
      · simp [_level_cb, _level_cb_low, hs] at hr
        subst hr
        simp
      · simp [_level_cb, _level_cb_low, hs] at hr
        subst hr
        simp
      · by_cases hcyc : 59 ≤ (dev.bitCounter + 1) % 256
        · simp only [_level_cb, _level_cb_low, hs, set_frame_bit] at hr
          simp only [Bool.false_eq_true, ↓reduceIte] at hr
          split_ifs at hr with h1 h2
          all_goals first
            | (simp at hr; done)
            | (simp [count_bit, DCF77_READING_CYCLE, hcyc] at hr
               subst hr
               simp [hcyc])
        · simp only [_level_cb, _level_cb_low, hs, set_frame_bit] at hr
          simp only [Bool.false_eq_true, ↓reduceIte] at hr
          split_ifs at hr with h1 h2
          all_goals first
            | (simp at hr; done)
            | (simp [count_bit, DCF77_READING_CYCLE, hcyc] at hr
               subst hr
               simp [hcyc])
    · simp [_level_cb] at hr
      subst hr
      refine ⟨by simp, fun _ => level_cb_high_last_bitseq dev t, ?_⟩
      intro hs
      simp [_level_cb_high, hs]

/-- C13: for every decoder state the callback can receive (`bitCounter < 59`,
which holds in every state reached from `dcf77_init`) and every edge event,
the callback returns a state whose completed frame is the one before the
event, except for a falling edge in `DCF77_STATE_RX` that brings the bit
counter to 59, where the completed frame becomes the working frame with the
bit just appended; and an event handled in `DCF77_STATE_IDLE` leaves the
working frame unchanged. -/
theorem completed_frame_changes_only_at_cycle_end (dev : dcf77_t) (pin : Bool) (t t2 : Nat)
    (hc : dev.bitCounter < 59) :
    ∃ r, _level_cb dev pin t t2 = some r ∧
      (pin = false ∧ dev.internal_state = State.DCF77_STATE_RX ∧ dev.bitCounter + 1 = 59 →
        r.last_bitseq = r.bitseq ∧
        r.bitseq = (if pulse_is_one dev t then dev.bitseq ||| 2 ^ 58 else dev.bitseq)) ∧
      (¬ (pin = false ∧ dev.internal_state = State.DCF77_STATE_RX ∧
          dev.bitCounter + 1 = 59) →
        r.last_bitseq = dev.last_bitseq) ∧
      (dev.internal_state = State.DCF77_STATE_IDLE → r.bitseq = dev.bitseq) := by
  obtain ⟨hdef, heff, hiff⟩ := level_cb_frames dev pin t t2
  obtain ⟨r, hr⟩ := hdef (by omega)
  obtain ⟨e1, e2, e3⟩ := heff r hr
  refine ⟨r, hr, ?_, ?_, e3⟩
  · rintro ⟨hp, hs, h59⟩
    refine ⟨e1 ⟨hp, hs, (hiff hc).2 h59⟩, ?_⟩
    subst hp
    have hbc : dev.bitCounter = 58 := by omega
    rw [level_cb_low_rx dev t t2 hs (by omega)] at hr
    cases hr
    rw [count_bit_bitseq, hbc]
  · intro hn
    apply e2
    rintro ⟨hp, hs, h59⟩
    exact hn ⟨hp, hs, (hiff hc).1 h59⟩

/-- Witness of C13: the 59th falling edge of a cycle, 200,000 after the rising
edge. -/
theorem completed_frame_changes_only_at_cycle_end_witness :
    (receivingDevice 5 58 58000000).bitCounter < 59 ∧
    (receivingDevice 5 58 58000000).internal_state = State.DCF77_STATE_RX ∧
    (receivingDevice 5 58 58000000).bitCounter + 1 = 59 ∧
    ∃ r, _level_cb (receivingDevice 5 58 58000000) false 58200000 58200000 = some r ∧
      (false = false ∧
          (receivingDevice 5 58 58000000).internal_state = State.DCF77_STATE_RX ∧
          (receivingDevice 5 58 58000000).bitCounter + 1 = 59 →
        r.last_bitseq = r.bitseq ∧
        r.bitseq = (if pulse_is_one (receivingDevice 5 58 58000000) 58200000
                    then (receivingDevice 5 58 58000000).bitseq ||| 2 ^ 58
                    else (receivingDevice 5 58 58000000).bitseq)) ∧
      (¬ (false = false ∧
          (receivingDevice 5 58 58000000).internal_state = State.DCF77_STATE_RX ∧
          (receivingDevice 5 58 58000000).bitCounter + 1 = 59) →
        r.last_bitseq = (receivingDevice 5 58 58000000).last_bitseq) ∧
      ((receivingDevice 5 58 58000000).internal_state = State.DCF77_STATE_IDLE →
        r.bitseq = (receivingDevice 5 58 58000000).bitseq) :=
  ⟨by decide, rfl, rfl,
   completed_frame_changes_only_at_cycle_end (receivingDevice 5 58 58000000) false
     58200000 58200000 (by decide)⟩

/-- C16: a frame with matching parity, minute units nibble 15, is accepted
with `tm_min > 59` and `tm_hour > 23`; the status depends on the parity checks
alone; and for every frame the 8-bit intermediates are at most 85, 45, 45, 25
and 165, hence below 256, which bounds the members written on `DCF77_OK`. -/
theorem parity_is_the_only_validation :
    (∃ bits,
      (dcf77_get_time (deviceWithFrame bits) callerTime).1 = Ret.DCF77_OK ∧
      specParityOK bits = true ∧
      val_minute_l bits = 15 ∧
      59 < (dcf77_get_time (deviceWithFrame bits) callerTime).2.tm_min ∧
      23 < (dcf77_get_time (deviceWithFrame bits) callerTime).2.tm_hour) ∧
    (∀ (dev : dcf77_t) (time : tm),
      ((dcf77_get_time dev time).1 = Ret.DCF77_OK ↔ codeParityOK dev.last_bitseq = true) ∧
      10 * val_minute_h dev.last_bitseq + val_minute_l dev.last_bitseq ≤ 85 ∧
      10 * val_hour_h dev.last_bitseq + val_hour_l dev.last_bitseq ≤ 45 ∧
      10 * val_day_h dev.last_bitseq + val_day_l dev.last_bitseq ≤ 45 ∧
      10 * val_month_h dev.last_bitseq + val_month_l dev.last_bitseq ≤ 25 ∧
      10 * val_year_h dev.last_bitseq + val_year_l dev.last_bitseq ≤ 165 ∧
      ((dcf77_get_time dev time).1 = Ret.DCF77_OK →
        (dcf77_get_time dev time).2.tm_min ≤ 85 ∧
        (dcf77_get_time dev time).2.tm_hour ≤ 45 ∧
        (dcf77_get_time dev time).2.tm_mday ≤ 45 ∧
        (dcf77_get_time dev time).2.tm_mon ≤ 25 ∧
        (dcf77_get_time dev time).2.tm_year - 100 ≤ 165)) := by
  refine ⟨⟨frame_minute_85_hour_45, by decide⟩, ?_⟩
  intro dev time
  have b1 := bitfield_lt dev.last_bitseq 25 3
  have b2 := bitfield_lt dev.last_bitseq 21 4
  have b3 := bitfield_lt dev.last_bitseq 33 2
  have b4 := bitfield_lt dev.last_bitseq 29 4
  have b5 := bitfield_lt dev.last_bitseq 40 2
  have b6 := bitfield_lt dev.last_bitseq 36 4
  have b8 := bitfield_lt dev.last_bitseq 49 1
  have b9 := bitfield_lt dev.last_bitseq 45 4
  have b10 := bitfield_lt dev.last_bitseq 54 4
  have b11 := bitfield_lt dev.last_bitseq 50 4
  norm_num at b1 b2 b3 b4 b5 b6 b8 b9 b10 b11
  refine ⟨?_, ?_, ?_, ?_, ?_, ?_, ?_⟩
  · rw [get_time_status]
    by_cases h : codeParityOK dev.last_bitseq = true <;> simp [h]
  · simp only [val_minute_h, val_minute_l]; omega
  · simp only [val_hour_h, val_hour_l]; omega
  · simp only [val_day_h, val_day_l]; omega
  · simp only [val_month_h, val_month_l]; omega
  · simp only [val_year_h, val_year_l]; omega
  · intro hok
    unfold dcf77_get_time at hok ⊢
    simp only [val_minute_h, val_minute_l, val_hour_h, val_hour_l, val_day_h, val_day_l,
      val_wday, val_month_h, val_month_l, val_year_h, val_year_l] at hok ⊢
    have m1 : (10 * bitfield dev.last_bitseq 25 3 + bitfield dev.last_bitseq 21 4) % 256
        = 10 * bitfield dev.last_bitseq 25 3 + bitfield dev.last_bitseq 21 4 :=
      Nat.mod_eq_of_lt (by omega)
    have m2 : (10 * bitfield dev.last_bitseq 33 2 + bitfield dev.last_bitseq 29 4) % 256
        = 10 * bitfield dev.last_bitseq 33 2 + bitfield dev.last_bitseq 29 4 :=
      Nat.mod_eq_of_lt (by omega)
    have m3 : (10 * bitfield dev.last_bitseq 40 2 + bitfield dev.last_bitseq 36 4) % 256
        = 10 * bitfield dev.last_bitseq 40 2 + bitfield dev.last_bitseq 36 4 :=
      Nat.mod_eq_of_lt (by omega)
    have m4 : (10 * bitfield dev.last_bitseq 49 1 + bitfield dev.last_bitseq 45 4) % 256
        = 10 * bitfield dev.last_bitseq 49 1 + bitfield dev.last_bitseq 45 4 :=
      Nat.mod_eq_of_lt (by omega)
    have m5 : (10 * bitfield dev.last_bitseq 54 4 + bitfield dev.last_bitseq 50 4) % 256
        = 10 * bitfield dev.last_bitseq 54 4 + bitfield dev.last_bitseq 50 4 :=
      Nat.mod_eq_of_lt (by omega)
    simp only [m1, m2, m3, m4, m5] at hok ⊢
    split_ifs at hok ⊢ <;> simp only [] <;> omega

/-- C17: for a first edge at true time `c` and a second one `d < 2^32`
microseconds later, the 32-bit difference of the two timer readings is `d`,
also when the reading wrapped in between; so the gap test of the rising-edge
handler and the width test of the falling-edge handler depend on `d` alone. -/
theorem interval_is_wrap_safe (c d : Nat) (hd : d < 4294967296) :
    sub_u32 (xtimer_now_usec (c + d)) (xtimer_now_usec c) = d ∧
    (∀ (dev : dcf77_t) (t2 : Nat), dev.internal_state = State.DCF77_STATE_START →
      dev.startTime = xtimer_now_usec c →
      ∃ r, _level_cb dev true (c + d) t2 = some r ∧
        (r.internal_state = State.DCF77_STATE_RX ↔ 1200000 < d)) ∧
    (∀ (dev : dcf77_t) (t2 : Nat), dev.internal_state = State.DCF77_STATE_RX →
      dev.startTime = xtimer_now_usec c → dev.bitCounter < 64 →
      dev.bitseq.testBit dev.bitCounter = false →
      ∃ r, _level_cb dev false (c + d) t2 = some r ∧
        (r.bitseq.testBit dev.bitCounter = true ↔ 140000 < d)) := by
  have hsub : sub_u32 (xtimer_now_usec (c + d)) (xtimer_now_usec c) = d := by
    unfold sub_u32 xtimer_now_usec
    omega
  refine ⟨hsub, ?_, ?_⟩
  · intro dev t2 hs hst
    refine ⟨_level_cb_high dev (c + d), by simp [_level_cb], ?_⟩
    simp only [_level_cb_high, hs, hst, hsub, DCF77_PULSE_START_HIGH_THRESHOLD]
    by_cases h : 1200000 < d <;> simp [h]
  · intro dev t2 hs hst hc hz
    refine ⟨_, level_cb_low_rx dev (c + d) t2 hs hc, ?_⟩
    rw [count_bit_bitseq]
    simp only [pulse_is_one, hst, hsub, DCF77_PULSE_WIDTH_THRESHOLD]
    by_cases h : 140000 < d
    · simp [h, Nat.testBit_two_pow_self]
    · simp [h, hz]

/-- Witness of C17: the timer wraps between the two edges, the second
reading being the smaller one. -/
theorem interval_is_wrap_safe_witness :
    xtimer_now_usec (4294867296 + 200000) < xtimer_now_usec 4294867296 ∧
    sub_u32 (xtimer_now_usec (4294867296 + 200000)) (xtimer_now_usec 4294867296) = 200000 :=
  ⟨by decide, (interval_is_wrap_safe 4294867296 200000 (by decide)).1⟩

end Machine

end DCF77
